import Mathlib

/-!
Verification of the XVIZ binary-container codec, protocol message parser,
stream normalizer and websocket sender decision logic.

Code embedded from the repository sources:
  - `packBinaryJson` / `flattenObject` (binary container encoder),
  - `XVIZWebsocketSender` decision logic (`_sendDataDirect`,
    `_getFormatOptions`, `_syncFormatWithWriter`, `onStateUpdate`,
    `onMetadata`).

Parts of the system whose code is not in the repository snapshot (only their
tests and callers are) are modelled from the specification; each such
definition carries a doc comment starting with "Modelled from the spec:".
These are the binary-container decoder, `flattenToTypedArray`,
`unpackEnvelope`, `parseStreamLogData` with its timeslice normalization, and
the point-cloud stream merger.

JSON numeric values are modelled as integers; the element conversions that
`Float32Array` / `Uint8Array` construction performs are abstracted as a pair
of conversion functions (`NumConv`), which is exactly the numeric
widening/narrowing declared by the flattening policy.
-/

namespace XVIZ

/-! ### Decimal rendering and parsing of buffer indices

`packBinaryJson` renders accessor indices with JavaScript template literals
(`#/accessors/3`); the decoder parses them back.  We implement a decimal
printer/parser over `List Char` (kernel-reducible, unlike the iterator-based
`String` primitives) and prove the round trip. -/

def digitChar (d : Nat) : Char :=
  match d with
  | 0 => '0' | 1 => '1' | 2 => '2' | 3 => '3' | 4 => '4'
  | 5 => '5' | 6 => '6' | 7 => '7' | 8 => '8' | _ => '9'

def isDigitChar (c : Char) : Bool := 48 ≤ c.toNat && c.toNat ≤ 57

def digitVal (c : Char) : Nat := c.toNat - 48

def natCharsAux : Nat → Nat → List Char
  | 0, _ => []
  | fuel + 1, n =>
    if n < 10 then [digitChar n] else natCharsAux fuel (n / 10) ++ [digitChar (n % 10)]

/-- Decimal digit string of a natural number (the rendering of a buffer
index inside a JSON-pointer string). -/
def natChars (n : Nat) : List Char := natCharsAux (n + 1) n

def charsValAux (a : Nat) : List Char → Nat
  | [] => a
  | c :: tl => charsValAux (10 * a + digitVal c) tl

def charsVal (cs : List Char) : Nat := charsValAux 0 cs

/-- Parse a non-empty all-digit character list as a decimal number. -/
def charsToNat (cs : List Char) : Option Nat :=
  if cs.isEmpty then none
  else if cs.all isDigitChar then some (charsVal cs) else none

theorem digitVal_digitChar {d : Nat} (h : d < 10) : digitVal (digitChar d) = d := by
  interval_cases d <;> rfl

theorem isDigitChar_digitChar {d : Nat} (h : d < 10) : isDigitChar (digitChar d) = true := by
  interval_cases d <;> rfl

theorem charsValAux_snoc (l : List Char) (c : Char) : ∀ a : Nat,
    charsValAux a (l ++ [c]) = 10 * charsValAux a l + digitVal c := by
  induction l with
  | nil => intro a; rfl
  | cons x tl ih =>
    intro a
    show charsValAux (10 * a + digitVal x) (tl ++ [c])
        = 10 * charsValAux (10 * a + digitVal x) tl + digitVal c
    exact ih _

theorem natCharsAux_congr : ∀ n f g, n < f → n < g → natCharsAux f n = natCharsAux g n := by
  intro n
  induction n using Nat.strong_induction_on with
  | _ n ih =>
    intro f g hf hg
    match f, g with
    | f' + 1, g' + 1 =>
      by_cases h10 : n < 10
      · simp [natCharsAux, h10]
      · have hdiv : n / 10 < n := Nat.div_lt_self (by omega) (by omega)
        simp only [natCharsAux, h10, if_false]
        rw [ih (n / 10) hdiv f' g' (by omega) (by omega)]

theorem natCharsAux_succ (f n : Nat) : natCharsAux (f + 1) n =
    if n < 10 then [digitChar n] else natCharsAux f (n / 10) ++ [digitChar (n % 10)] := rfl

theorem natChars_eq (n : Nat) :
    natChars n = if n < 10 then [digitChar n] else natChars (n / 10) ++ [digitChar (n % 10)] := by
  show natCharsAux (n + 1) n = _
  rw [natCharsAux_succ]
  by_cases h10 : n < 10
  · simp [h10]
  · have hdiv : n / 10 < n := Nat.div_lt_self (by omega) (by omega)
    simp only [h10, if_false]
    rw [natCharsAux_congr (n / 10) n (n / 10 + 1) (by omega) (by omega)]
    rfl

theorem charsVal_natChars (n : Nat) : charsVal (natChars n) = n := by
  induction n using Nat.strong_induction_on with
  | _ n ih =>
    rw [natChars_eq]
    by_cases h10 : n < 10
    · rw [if_pos h10]
      show 10 * 0 + digitVal (digitChar n) = n
      rw [digitVal_digitChar h10]
      omega
    · have hdiv : n / 10 < n := Nat.div_lt_self (by omega) (by omega)
      rw [if_neg h10]
      show charsValAux 0 (natChars (n / 10) ++ [digitChar (n % 10)]) = n
      rw [charsValAux_snoc]
      have hv := ih _ hdiv
      rw [show charsValAux 0 (natChars (n / 10)) = charsVal (natChars (n / 10)) from rfl, hv,
        digitVal_digitChar (show n % 10 < 10 by omega)]
      omega

theorem natChars_all_digits (n : Nat) : (natChars n).all isDigitChar = true := by
  induction n using Nat.strong_induction_on with
  | _ n ih =>
    rw [natChars_eq]
    by_cases h10 : n < 10
    · simp [h10, isDigitChar_digitChar h10]
    · have hdiv : n / 10 < n := Nat.div_lt_self (by omega) (by omega)
      simp [h10, List.all_append, ih _ hdiv,
        isDigitChar_digitChar (show n % 10 < 10 by omega)]

theorem natChars_ne_nil (n : Nat) : natChars n ≠ [] := by
  rw [natChars_eq]
  split <;> simp

theorem charsToNat_natChars (n : Nat) : charsToNat (natChars n) = some n := by
  rw [charsToNat, if_neg, if_pos (natChars_all_digits n), charsVal_natChars]
  simp [List.isEmpty_iff, natChars_ne_nil]

/-! ### JSON-compatible trees

The value universe over which the codec operates: JSON null, booleans,
numbers (modelled as integers), strings, arrays and objects (ordered field
lists, mirroring JavaScript `for (const key in object)` insertion order). -/

mutual
inductive JValue : Type where
  | null : JValue
  | bool : Bool → JValue
  | num : Int → JValue
  | str : String → JValue
  | arr : JArr → JValue
  | obj : JObj → JValue
deriving DecidableEq
inductive JArr : Type where
  | nil : JArr
  | cons : JValue → JArr → JArr
deriving DecidableEq
inductive JObj : Type where
  | nil : JObj
  | cons : String → JValue → JObj → JObj
deriving DecidableEq
end

def jarrLength : JArr → Nat
  | .nil => 0
  | .cons _ tl => jarrLength tl + 1

/-! ### Binary container codec: encoder (embedded from `packBinaryJson`) -/

/-- The element conversions performed by the typed-array constructors of the
flattening policy: `f32` is the `Float32Array` element conversion used for
`vertices`/`points`, `u8` the `Uint8Array` element conversion used for
`colors`.  They are abstracted as functions; on integral color components
0-255 the `u8` conversion of JavaScript is the identity. -/
structure NumConv where
  f32 : Int → Int
  u8 : Int → Int

/-- The identity conversion pair, used for concrete examples whose numbers
are exactly representable (small integers / integral 0-255 colors). -/
def convId : NumConv := { f32 := id, u8 := id }

/-- The `options` parameter of `packBinaryJson` (`{flattenArrays = true}`). -/
structure PackOptions where
  flattenArrays : Bool := true
deriving DecidableEq

/-- The `objectKey` parameter of `packBinaryJson`.  In the source it is
`null`, a string key, or — through the recursive call
`object.map(element => packBinaryJson(element, gltfBuilder, options))`,
which passes the options object in the `objectKey` position — the options
object itself. -/
inductive JKey where
  | noKey : JKey
  | str : String → JKey
  | opts : PackOptions → JKey
deriving DecidableEq

/-- One buffer registered with the GLTF builder by `addBuffer(object, {size})`:
the component count and the converted numeric data. -/
structure PackBuffer where
  size : Nat
  data : List Int
deriving DecidableEq

def jarrNums : JArr → List Int
  | .nil => []
  | .cons (.num n) tl => n :: jarrNums tl
  | .cons _ tl => jarrNums tl

def flattenItem : JValue → List Int
  | .num n => [n]
  | .arr ys => jarrNums ys
  | _ => []

/-- Modelled from the spec: `flattenToTypedArray` (imported by the encoder
from `../../utils`, not part of the repository snapshot) flattens an array of
records — each record a number or a nested coordinate array — into one flat
numeric buffer, in traversal order. -/
def flattenToTypedArray : JArr → List Int
  | .nil => []
  | .cons v tl => flattenItem v ++ flattenToTypedArray tl

/-- Embedded from the source `flattenObject(key, object)`: keys `vertices`
and `points` flatten to a 3-component `Float32Array`; key `colors` flattens
to a `Uint8Array` whose component count is 4 if the first element has length
4 and 3 otherwise (`colorsSize` names the source's inline
`object[0].length === 4 ? 4 : 3`); any other key does not flatten.  (The
JavaScript expression throws on an empty `colors` array; the embedding is
total and callers restrict to non-empty `colors`.) -/
def colorsSize : JArr → Nat
  | .cons (.arr ys) _ => if jarrLength ys = 4 then 4 else 3
  | _ => 3

def flattenObject (conv : NumConv) (key : JKey) (object : JArr) : Option PackBuffer :=
  if key = .str "vertices" ∨ key = .str "points" then
    some { size := 3, data := (flattenToTypedArray object).map conv.f32 }
  else if key = .str "colors" then
    some { size := colorsSize object, data := (flattenToTypedArray object).map conv.u8 }
  else none

def hashSlashPrefix : List Char → Bool
  | c1 :: c2 :: _ => c1 == '#' && c2 == '/'
  | _ => false

/-- The check `object.indexOf('#/') === 0` of the source. -/
def startsWithHashSlash (s : String) : Bool := hashSlashPrefix s.data

/-- The accessor JSON pointer `#/accessors/<index>` produced for buffer
`index`. -/
def accessorPointer (i : Nat) : String := ⟨"#/accessors/".data ++ natChars i⟩

mutual
/-- Embedded from the source `packBinaryJson(json, gltfBuilder, objectKey,
options)`.  The GLTF builder is modelled as the ordered buffer list it
accumulates (`addBuffer` appends and returns the position); image values do
not occur in JSON-compatible trees, so `isImage` never fires.  Note the
faithful quirk: the element-wise recursive call passes the caller's options
object in the `objectKey` position and the default options in the `options`
position. -/
def packBinaryJson (conv : NumConv) (json : JValue) (objectKey : JKey)
    (options : PackOptions) (bufs : List PackBuffer) : JValue × List PackBuffer :=
  match json with
  | .str s =>
    if startsWithHashSlash s then (.str ⟨'#' :: s.data⟩, bufs) else (.str s, bufs)
  | .arr xs =>
    match (if options.flattenArrays then flattenObject conv objectKey xs else none) with
    | some info => (.str (accessorPointer bufs.length), bufs ++ [info])
    | none =>
      let r := packArr conv xs (.opts options) {} bufs
      (.arr r.1, r.2)
  | .obj fs =>
    let r := packObj conv fs options bufs
    (.obj r.1, r.2)
  | v => (v, bufs)
/-- Element-wise packing of an array: every element is packed with the key
and options the caller of `packBinaryJson`'s `map` call supplies (the quirky
`(.opts options, {})` pair). -/
def packArr (conv : NumConv) (xs : JArr) (objectKey : JKey)
    (options : PackOptions) (bufs : List PackBuffer) : JArr × List PackBuffer :=
  match xs with
  | .nil => (.nil, bufs)
  | .cons v tl =>
    let rv := packBinaryJson conv v objectKey options bufs
    let rt := packArr conv tl objectKey options rv.2
    (.cons rv.1 rt.1, rt.2)
/-- Field-wise packing of an object: each field value is packed with its own
field name as key and the caller's options. -/
def packObj (conv : NumConv) (fs : JObj) (options : PackOptions)
    (bufs : List PackBuffer) : JObj × List PackBuffer :=
  match fs with
  | .nil => (.nil, bufs)
  | .cons k v tl =>
    let rv := packBinaryJson conv v (.str k) options bufs
    let rt := packObj conv tl options rv.2
    (.cons k rv.1 rt.1, rt.2)
end

/-! ### Binary container codec: decoder (modelled from the spec) -/

def dropPrefixChars (pre l : List Char) : Option (List Char) :=
  if pre.isPrefixOf l then some (l.drop pre.length) else none

/-- Modelled from the spec: accessor pointer strings follow the strict
grammar `#/accessors/<uint>`; the decoder resolves the decimal index
positionally into the buffer table. -/
def parseAccessorIndex (s : String) : Option Nat :=
  match dropPrefixChars "#/accessors/".data s.data with
  | some rest => charsToNat rest
  | none => none

def jarrOfInts : List Int → JArr
  | [] => .nil
  | n :: tl => .cons (.num n) (jarrOfInts tl)

def escapedPrefix : List Char → Bool
  | c1 :: c2 :: c3 :: _ => c1 == '#' && c2 == '#' && c3 == '/'
  | _ => false

/-- The decoder-side check for an escaped string (`##/...`). -/
def startsWithEscaped (s : String) : Bool := escapedPrefix s.data

mutual
/-- Modelled from the spec: the decode side of the binary container
(performed by the loaders.gl unpacking, not part of the repository
snapshot).  Walking the skeleton, an accessor pointer string is replaced by
the flat numeric array of the buffer at its positional index (failing if the
index is out of range), an escaped string `##/...` is unescaped by removing
one leading `#`, and every other value is kept, recursing through arrays and
objects.  Image pointers do not arise for JSON-compatible input trees. -/
def decodeValue (bufs : List PackBuffer) : JValue → Option JValue
  | .str s =>
    match parseAccessorIndex s with
    | some i =>
      match bufs[i]? with
      | some pb => some (.arr (jarrOfInts pb.data))
      | none => none
    | none =>
      if startsWithEscaped s then some (.str ⟨s.data.drop 1⟩) else some (.str s)
  | .arr xs =>
    match decodeArr bufs xs with
    | some ys => some (.arr ys)
    | none => none
  | .obj fs =>
    match decodeObj bufs fs with
    | some gs => some (.obj gs)
    | none => none
  | v => some v
/-- Modelled from the spec: element-wise decoding of a skeleton array. -/
def decodeArr (bufs : List PackBuffer) : JArr → Option JArr
  | .nil => some .nil
  | .cons v tl =>
    match decodeValue bufs v, decodeArr bufs tl with
    | some v', some tl' => some (.cons v' tl')
    | _, _ => none
/-- Modelled from the spec: field-wise decoding of a skeleton object. -/
def decodeObj (bufs : List PackBuffer) : JObj → Option JObj
  | .nil => some .nil
  | .cons k v tl =>
    match decodeValue bufs v, decodeObj bufs tl with
    | some v', some tl' => some (.cons k v' tl')
    | _, _ => none
end

/-! ### The declared numeric widening/narrowing, as a pure tree map

`narrowValue` is the transformation the spec's round-trip clause declares:
the tree is kept structurally identical, except that the elements of arrays
flattened by the policy receive the declared element conversion (`f32` under
`vertices`/`points`, `u8` under `colors`).  It mirrors the key/options
threading of the encoder (elements of non-flattened arrays are visited with
the options object as key and default options, so no flattening key applies
to them). -/

def mapNums (f : Int → Int) : JArr → JArr
  | .nil => .nil
  | .cons (.num n) tl => .cons (.num (f n)) (mapNums f tl)
  | .cons v tl => .cons v (mapNums f tl)

mutual
/-- The tree transformation "structurally equal, up to the numeric
widening/narrowing declared by the flattening policy", following the spec's
words. -/
def narrowValue (conv : NumConv) : JValue → JKey → PackOptions → JValue
  | .str s, _, _ => .str s
  | .arr xs, key, options =>
    if options.flattenArrays = true ∧ (key = .str "vertices" ∨ key = .str "points") then
      .arr (mapNums conv.f32 xs)
    else if options.flattenArrays = true ∧ key = .str "colors" then
      .arr (mapNums conv.u8 xs)
    else .arr (narrowArr conv xs (.opts options) {})
  | .obj fs, _, options => .obj (narrowObj conv fs options)
  | v, _, _ => v
def narrowArr (conv : NumConv) : JArr → JKey → PackOptions → JArr
  | .nil, _, _ => .nil
  | .cons v tl, key, options =>
    .cons (narrowValue conv v key options) (narrowArr conv tl key options)
def narrowObj (conv : NumConv) : JObj → PackOptions → JObj
  | .nil, _ => .nil
  | .cons k v tl, options =>
    .cons k (narrowValue conv v (.str k) options) (narrowObj conv tl options)
end

/-! ### Well-formedness for the round trip

The amended round-trip claim restricts to trees whose arrays under the
flattening keys are flat (already один-level) numeric arrays — `colors`
non-empty — and whose strings do not start with the escaped form `##/`
(double-escaping is not injective). -/

def allNums : JArr → Bool
  | .nil => true
  | .cons (.num _) tl => allNums tl
  | .cons _ _ => false

mutual
/-- Well-formedness of a tree for the amended round-trip statement, relative
to the key and options with which the encoder will visit it. -/
def wfValue : JValue → JKey → PackOptions → Bool
  | .str s, _, _ => !startsWithEscaped s
  | .arr xs, key, options =>
    if options.flattenArrays = true ∧ (key = .str "vertices" ∨ key = .str "points") then
      allNums xs
    else if options.flattenArrays = true ∧ key = .str "colors" then
      allNums xs && decide (xs ≠ .nil)
    else wfArr xs (.opts options) {}
  | .obj fs, _, options => wfObj fs options
  | _, _, _ => true
def wfArr : JArr → JKey → PackOptions → Bool
  | .nil, _, _ => true
  | .cons v tl, key, options => wfValue v key options && wfArr tl key options
def wfObj : JObj → PackOptions → Bool
  | .nil, _ => true
  | .cons k v tl, options => wfValue v (.str k) options && wfObj tl options
end

example :
    packBinaryJson convId (.obj (.cons "vertices" (.arr (.cons (.num 1) (.cons (.num 2) (.cons (.num 3) .nil)))) .nil)) .noKey {} []
      = (.obj (.cons "vertices" (.str "#/accessors/0") .nil), [{ size := 3, data := [1, 2, 3] }]) := by
  decide

example :
    decodeValue [{ size := 3, data := [1, 2, 3] }] (.obj (.cons "vertices" (.str "#/accessors/0") .nil))
      = some (.obj (.cons "vertices" (.arr (.cons (.num 1) (.cons (.num 2) (.cons (.num 3) .nil)))) .nil)) := by
  decide

/-! ### Round-trip support lemmas -/

theorem hashSlashPrefix_shape {l : List Char} (h : hashSlashPrefix l = true) :
    ∃ r, l = '#' :: '/' :: r := by
  match l, h with
  | c1 :: c2 :: r, h =>
    simp only [hashSlashPrefix, Bool.and_eq_true, beq_iff_eq] at h
    exact ⟨r, by rw [h.1, h.2]⟩

theorem parseAccessorIndex_pointer (i : Nat) :
    parseAccessorIndex (accessorPointer i) = some i := by
  show (match dropPrefixChars "#/accessors/".data ("#/accessors/".data ++ natChars i) with
    | some rest => charsToNat rest
    | none => none) = some i
  rw [dropPrefixChars, if_pos, List.drop_left]
  · exact charsToNat_natChars i
  · rw [List.isPrefixOf_iff_prefix]
    exact List.prefix_append _ _

theorem parseAccessorIndex_eq_none (s : String) (h : hashSlashPrefix s.data = false) :
    parseAccessorIndex s = none := by
  have hpre : ("#/accessors/".data.isPrefixOf s.data) = false := by
    by_contra hc
    rw [Bool.not_eq_false, List.isPrefixOf_iff_prefix] at hc
    obtain ⟨rest, hrest⟩ := hc
    have hd : s.data = '#' :: '/' :: ("accessors/".data ++ rest) := by
      rw [← hrest]; rfl
    rw [hd] at h
    exact absurd h (by simp [hashSlashPrefix])
  rw [parseAccessorIndex, dropPrefixChars, if_neg (by simp [hpre])]

theorem parseAccessorIndex_escaped {r : List Char} :
    parseAccessorIndex ⟨'#' :: '#' :: '/' :: r⟩ = none := by
  rw [parseAccessorIndex, dropPrefixChars, if_neg]
  intro hc
  rw [List.isPrefixOf_iff_prefix] at hc
  obtain ⟨rest, hrest⟩ := hc
  have h2 := congrArg (fun l => l[1]?) hrest
  simp at h2

theorem flatten_mapNums : ∀ (xs : JArr), allNums xs = true →
    ∀ f : Int → Int, jarrOfInts ((flattenToTypedArray xs).map f) = mapNums f xs
  | .nil, _, _ => rfl
  | .cons (.num n) tl, h, f => by
    have ih := flatten_mapNums tl h f
    show JArr.cons (.num (f n)) (jarrOfInts ((flattenToTypedArray tl).map f))
        = .cons (.num (f n)) (mapNums f tl)
    rw [ih]
  | .cons .null tl, h, _ => by simp [allNums] at h
  | .cons (.bool _) tl, h, _ => by simp [allNums] at h
  | .cons (.str _) tl, h, _ => by simp [allNums] at h
  | .cons (.arr _) tl, h, _ => by simp [allNums] at h
  | .cons (.obj _) tl, h, _ => by simp [allNums] at h

theorem lookup_appended {α : Type} (l1 : List α) (x : α) (l2 : List α) :
    ((l1 ++ [x]) ++ l2)[l1.length]? = some x := by
  rw [List.append_assoc, List.getElem?_append_right (Nat.le_refl _)]
  simp

/-! ### The round trip -/

mutual
theorem packDecodeValue (conv : NumConv) (t : JValue) (key : JKey) (opts : PackOptions)
    (bufs C : List PackBuffer) (hwf : wfValue t key opts = true) :
    (∃ extra, (packBinaryJson conv t key opts bufs).2 = bufs ++ extra) ∧
    decodeValue ((packBinaryJson conv t key opts bufs).2 ++ C)
        (packBinaryJson conv t key opts bufs).1 = some (narrowValue conv t key opts) :=
  match t, hwf with
  | .null, _ => ⟨⟨[], by simp [packBinaryJson]⟩, rfl⟩
  | .bool _, _ => ⟨⟨[], by simp [packBinaryJson]⟩, rfl⟩
  | .num _, _ => ⟨⟨[], by simp [packBinaryJson]⟩, rfl⟩
  | .str s, hwf => by
    have hne : startsWithEscaped s = false := by
      simpa only [wfValue, Bool.not_eq_eq_eq_not, Bool.not_true] using hwf
    by_cases hs : startsWithHashSlash s = true
    · obtain ⟨r, hr⟩ := hashSlashPrefix_shape hs
      have hseq : s = ⟨'#' :: '/' :: r⟩ := by rw [← hr]
      have hpack : packBinaryJson conv (.str s) key opts bufs = (.str ⟨'#' :: s.data⟩, bufs) := by
        simp only [packBinaryJson, if_pos hs]
      rw [hpack]
      refine ⟨⟨[], by simp⟩, ?_⟩
      rw [hseq]
      rfl
    · have hpack : packBinaryJson conv (.str s) key opts bufs = (.str s, bufs) := by
        simp only [packBinaryJson, if_neg hs]
      rw [hpack]
      refine ⟨⟨[], by simp⟩, ?_⟩
      have hnone := parseAccessorIndex_eq_none s (Bool.not_eq_true _ ▸ hs)
      simp only [decodeValue, hnone, hne, narrowValue, Bool.false_eq_true, if_false]
  | .arr xs, hwf => by
    by_cases hA : opts.flattenArrays = true ∧ (key = JKey.str "vertices" ∨ key = JKey.str "points")
    · have hnums : allNums xs = true := by
        simp only [wfValue] at hwf
        rwa [if_pos hA] at hwf
      have hfo : flattenObject conv key xs
          = some { size := 3, data := (flattenToTypedArray xs).map conv.f32 } := by
        rw [flattenObject, if_pos hA.2]
      have hpack : packBinaryJson conv (.arr xs) key opts bufs
          = (.str (accessorPointer bufs.length),
             bufs ++ [{ size := 3, data := (flattenToTypedArray xs).map conv.f32 }]) := by
        simp only [packBinaryJson, if_pos hA.1, hfo]
      rw [hpack]
      refine ⟨⟨_, rfl⟩, ?_⟩
      simp only [decodeValue, parseAccessorIndex_pointer, lookup_appended]
      rw [flatten_mapNums xs hnums conv.f32]
      simp only [narrowValue]
      rw [if_pos hA]
    · by_cases hC2 : opts.flattenArrays = true ∧ key = JKey.str "colors"
      · have hvp : ¬(key = JKey.str "vertices" ∨ key = JKey.str "points") := by
          rw [hC2.2]
          simp
        have hnums : allNums xs = true := by
          simp only [wfValue] at hwf
          rw [if_neg hA, if_pos hC2] at hwf
          exact (Bool.and_eq_true _ _ ▸ hwf).1
        have hfo : flattenObject conv key xs
            = some { size := colorsSize xs, data := (flattenToTypedArray xs).map conv.u8 } := by
          rw [flattenObject, if_neg hvp, if_pos hC2.2]
        have hpack : packBinaryJson conv (.arr xs) key opts bufs
            = (.str (accessorPointer bufs.length),
               bufs ++ [{ size := colorsSize xs, data := (flattenToTypedArray xs).map conv.u8 }]) := by
          simp only [packBinaryJson, if_pos hC2.1, hfo]
        rw [hpack]
        refine ⟨⟨_, rfl⟩, ?_⟩
        simp only [decodeValue, parseAccessorIndex_pointer, lookup_appended]
        rw [flatten_mapNums xs hnums conv.u8]
        simp only [narrowValue]
        rw [if_neg hA, if_pos hC2]
      · have hnone : (if opts.flattenArrays then flattenObject conv key xs else none) = none := by
          by_cases hf : opts.flattenArrays = true
          · rw [if_pos hf, flattenObject, if_neg, if_neg]
            · intro hk; exact hC2 ⟨hf, hk⟩
            · intro hk; exact hA ⟨hf, hk⟩
          · rw [if_neg hf]
        have hwfA : wfArr xs (.opts opts) {} = true := by
          simp only [wfValue] at hwf
          rwa [if_neg hA, if_neg hC2] at hwf
        have hpack : packBinaryJson conv (.arr xs) key opts bufs
            = (.arr (packArr conv xs (.opts opts) {} bufs).1,
               (packArr conv xs (.opts opts) {} bufs).2) := by
          simp only [packBinaryJson, hnone]
        obtain ⟨⟨extra, hex⟩, hdec⟩ := packDecodeArr conv xs (.opts opts) {} bufs C hwfA
        rw [hpack]
        refine ⟨⟨extra, hex⟩, ?_⟩
        simp only [decodeValue, hdec, narrowValue]
        rw [if_neg hA, if_neg hC2]
  | .obj fs, hwf => by
    have hwfO : wfObj fs opts = true := by simpa only [wfValue] using hwf
    obtain ⟨⟨extra, hex⟩, hdec⟩ := packDecodeObj conv fs opts bufs C hwfO
    have hpack : packBinaryJson conv (.obj fs) key opts bufs
        = (.obj (packObj conv fs opts bufs).1, (packObj conv fs opts bufs).2) := by
      simp only [packBinaryJson]
    rw [hpack]
    exact ⟨⟨extra, hex⟩, by simp only [decodeValue, hdec, narrowValue]⟩
theorem packDecodeArr (conv : NumConv) (xs : JArr) (key : JKey) (opts : PackOptions)
    (bufs C : List PackBuffer) (hwf : wfArr xs key opts = true) :
    (∃ extra, (packArr conv xs key opts bufs).2 = bufs ++ extra) ∧
    decodeArr ((packArr conv xs key opts bufs).2 ++ C) (packArr conv xs key opts bufs).1
      = some (narrowArr conv xs key opts) :=
  match xs, hwf with
  | .nil, _ => ⟨⟨[], by simp [packArr]⟩, rfl⟩
  | .cons v tl, hwf => by
    have hv : wfValue v key opts = true := by
      simp only [wfArr, Bool.and_eq_true] at hwf
      exact hwf.1
    have htl : wfArr tl key opts = true := by
      simp only [wfArr, Bool.and_eq_true] at hwf
      exact hwf.2
    obtain ⟨⟨e2, he2⟩, hdec2⟩ :=
      packDecodeArr conv tl key opts (packBinaryJson conv v key opts bufs).2 C htl
    obtain ⟨⟨e1, he1⟩, hdec1⟩ := packDecodeValue conv v key opts bufs (e2 ++ C) hv
    have hpack : packArr conv (.cons v tl) key opts bufs
        = (.cons (packBinaryJson conv v key opts bufs).1
            (packArr conv tl key opts (packBinaryJson conv v key opts bufs).2).1,
           (packArr conv tl key opts (packBinaryJson conv v key opts bufs).2).2) := by
      simp only [packArr]
    rw [hpack]
    constructor
    · exact ⟨e1 ++ e2, by rw [he2, he1, List.append_assoc]⟩
    · have hbufs : (packArr conv tl key opts (packBinaryJson conv v key opts bufs).2).2 ++ C
          = (packBinaryJson conv v key opts bufs).2 ++ (e2 ++ C) := by
        rw [he2, List.append_assoc]
      simp only [decodeArr, hbufs, hdec1]
      rw [← hbufs]
      simp only [hdec2, narrowArr]
theorem packDecodeObj (conv : NumConv) (fs : JObj) (opts : PackOptions)
    (bufs C : List PackBuffer) (hwf : wfObj fs opts = true) :
    (∃ extra, (packObj conv fs opts bufs).2 = bufs ++ extra) ∧
    decodeObj ((packObj conv fs opts bufs).2 ++ C) (packObj conv fs opts bufs).1
      = some (narrowObj conv fs opts) :=
  match fs, hwf with
  | .nil, _ => ⟨⟨[], by simp [packObj]⟩, rfl⟩
  | .cons k v tl, hwf => by
    have hv : wfValue v (.str k) opts = true := by
      simp only [wfObj, Bool.and_eq_true] at hwf
      exact hwf.1
    have htl : wfObj tl opts = true := by
      simp only [wfObj, Bool.and_eq_true] at hwf
      exact hwf.2
    obtain ⟨⟨e2, he2⟩, hdec2⟩ :=
      packDecodeObj conv tl opts (packBinaryJson conv v (.str k) opts bufs).2 C htl
    obtain ⟨⟨e1, he1⟩, hdec1⟩ := packDecodeValue conv v (.str k) opts bufs (e2 ++ C) hv
    have hpack : packObj conv (.cons k v tl) opts bufs
        = (.cons k (packBinaryJson conv v (.str k) opts bufs).1
            (packObj conv tl opts (packBinaryJson conv v (.str k) opts bufs).2).1,
           (packObj conv tl opts (packBinaryJson conv v (.str k) opts bufs).2).2) := by
      simp only [packObj]
    rw [hpack]
    constructor
    · exact ⟨e1 ++ e2, by rw [he2, he1, List.append_assoc]⟩
    · have hbufs : (packObj conv tl opts (packBinaryJson conv v (.str k) opts bufs).2).2 ++ C
          = (packBinaryJson conv v (.str k) opts bufs).2 ++ (e2 ++ C) := by
        rw [he2, List.append_assoc]
      simp only [decodeObj, hbufs, hdec1]
      rw [← hbufs]
      simp only [hdec2, narrowObj]
end

theorem mapNums_id_fun (f : Int → Int) (hf : ∀ n, f n = n) : ∀ xs, mapNums f xs = xs
  | .nil => rfl
  | .cons (.num n) tl => by
    show JArr.cons (.num (f n)) (mapNums f tl) = .cons (.num n) tl
    rw [hf n, mapNums_id_fun f hf tl]
  | .cons .null tl => by
    show JArr.cons .null (mapNums f tl) = .cons .null tl
    rw [mapNums_id_fun f hf tl]
  | .cons (.bool b) tl => by
    show JArr.cons (.bool b) (mapNums f tl) = .cons (.bool b) tl
    rw [mapNums_id_fun f hf tl]
  | .cons (.str x) tl => by
    show JArr.cons (.str x) (mapNums f tl) = .cons (.str x) tl
    rw [mapNums_id_fun f hf tl]
  | .cons (.arr ys) tl => by
    show JArr.cons (.arr ys) (mapNums f tl) = .cons (.arr ys) tl
    rw [mapNums_id_fun f hf tl]
  | .cons (.obj gs) tl => by
    show JArr.cons (.obj gs) (mapNums f tl) = .cons (.obj gs) tl
    rw [mapNums_id_fun f hf tl]

mutual
theorem narrowValue_convId : ∀ (t : JValue) (key : JKey) (opts : PackOptions),
    narrowValue convId t key opts = t
  | .null, _, _ => rfl
  | .bool _, _, _ => rfl
  | .num _, _, _ => rfl
  | .str _, _, _ => rfl
  | .arr xs, key, opts => by
    simp only [narrowValue]
    split
    · rw [mapNums_id_fun convId.f32 (fun n => rfl) xs]
    · split
      · rw [mapNums_id_fun convId.u8 (fun n => rfl) xs]
      · rw [narrowArr_convId xs (.opts opts) {}]
  | .obj fs, _, opts => by
    simp only [narrowValue]
    rw [narrowObj_convId fs opts]
theorem narrowArr_convId : ∀ (xs : JArr) (key : JKey) (opts : PackOptions),
    narrowArr convId xs key opts = xs
  | .nil, _, _ => rfl
  | .cons v tl, key, opts => by
    simp only [narrowArr]
    rw [narrowValue_convId v key opts, narrowArr_convId tl key opts]
theorem narrowObj_convId : ∀ (fs : JObj) (opts : PackOptions),
    narrowObj convId fs opts = fs
  | .nil, _ => rfl
  | .cons k v tl, opts => by
    simp only [narrowObj]
    rw [narrowValue_convId v (.str k) opts, narrowObj_convId tl opts]
end

/-- Claim C1 (corrected, counterexample): the original claim — decoding the
container produced by encoding yields a tree structurally equal to the
original up to the declared numeric widening/narrowing — fails on a tree
with a nested per-record `vertices` array: with identity element
conversions (no numeric change at all), encoding then decoding
`{vertices: [[1,2,3]]}` yields `{vertices: [1,2,3]}`, which is structurally
different from the original. -/
theorem C1_counterexample :
    decodeValue
        (packBinaryJson convId
          (.obj (.cons "vertices"
            (.arr (.cons (.arr (.cons (.num 1) (.cons (.num 2) (.cons (.num 3) .nil)))) .nil))
            .nil))
          .noKey {} []).2
        (packBinaryJson convId
          (.obj (.cons "vertices"
            (.arr (.cons (.arr (.cons (.num 1) (.cons (.num 2) (.cons (.num 3) .nil)))) .nil))
            .nil))
          .noKey {} []).1
      = some (.obj (.cons "vertices"
          (.arr (.cons (.num 1) (.cons (.num 2) (.cons (.num 3) .nil)))) .nil))
    ∧ (JValue.obj (.cons "vertices"
          (.arr (.cons (.num 1) (.cons (.num 2) (.cons (.num 3) .nil)))) .nil))
        ≠ .obj (.cons "vertices"
            (.arr (.cons (.arr (.cons (.num 1) (.cons (.num 2) (.cons (.num 3) .nil)))) .nil))
            .nil) := by
  decide

/-- Claim C1 (amended): for every JSON-compatible tree whose arrays under
the keys `vertices`/`points`/`colors` are flat numeric arrays (`colors`
non-empty) and whose strings do not already start with the escaped form
`##/` (`wfValue`), decoding the container produced by encoding the tree
yields exactly the tree with the declared element conversions applied
(`narrowValue`: `f32` on the entries of `vertices`/`points` arrays, `u8` on
the entries of `colors` arrays, everything else — structure included —
unchanged); in particular, with identity conversions (exactly representable
numbers, integral 0-255 color components) the round trip returns the
original tree. -/
theorem C1_roundtrip_amended (conv : NumConv) (t : JValue)
    (hwf : wfValue t JKey.noKey {} = true) :
    decodeValue (packBinaryJson conv t .noKey {} []).2 (packBinaryJson conv t .noKey {} []).1
      = some (narrowValue conv t .noKey {})
    ∧ decodeValue (packBinaryJson convId t .noKey {} []).2
        (packBinaryJson convId t .noKey {} []).1 = some t := by
  constructor
  · have h1 := (packDecodeValue conv t .noKey {} [] [] hwf).2
    rwa [List.append_nil] at h1
  · have h2 := (packDecodeValue convId t .noKey {} [] [] hwf).2
    rw [List.append_nil, narrowValue_convId] at h2
    exact h2

/-- Witness for C1: a concrete well-formed tree — flat `vertices`, flat
non-empty `colors`, a pointer-like string value — round-trips to itself
under the identity conversions. -/
theorem C1_witness :
    wfValue
        (.obj (.cons "vertices" (.arr (.cons (.num 1) (.cons (.num 2) (.cons (.num 3) .nil))))
          (.cons "colors" (.arr (.cons (.num 0) (.cons (.num 0) (.cons (.num 255) .nil))))
          (.cons "note" (.str "#/accessors/0") .nil))))
        JKey.noKey {} = true
    ∧ decodeValue
        (packBinaryJson convId
          (.obj (.cons "vertices" (.arr (.cons (.num 1) (.cons (.num 2) (.cons (.num 3) .nil))))
            (.cons "colors" (.arr (.cons (.num 0) (.cons (.num 0) (.cons (.num 255) .nil))))
            (.cons "note" (.str "#/accessors/0") .nil))))
          .noKey {} []).2
        (packBinaryJson convId
          (.obj (.cons "vertices" (.arr (.cons (.num 1) (.cons (.num 2) (.cons (.num 3) .nil))))
            (.cons "colors" (.arr (.cons (.num 0) (.cons (.num 0) (.cons (.num 255) .nil))))
            (.cons "note" (.str "#/accessors/0") .nil))))
          .noKey {} []).1
      = some
          (.obj (.cons "vertices" (.arr (.cons (.num 1) (.cons (.num 2) (.cons (.num 3) .nil))))
            (.cons "colors" (.arr (.cons (.num 0) (.cons (.num 0) (.cons (.num 255) .nil))))
            (.cons "note" (.str "#/accessors/0") .nil)))) :=
  ⟨by decide,
    (C1_roundtrip_amended convId
      (.obj (.cons "vertices" (.arr (.cons (.num 1) (.cons (.num 2) (.cons (.num 3) .nil))))
        (.cons "colors" (.arr (.cons (.num 0) (.cons (.num 0) (.cons (.num 255) .nil))))
        (.cons "note" (.str "#/accessors/0") .nil))))
      (by decide)).2⟩

/-- Claim C8: a string value beginning with `#/` is escaped by the encoder
with one extra leading `#` (so it cannot be mistaken for a pointer, and no
buffer is added), and the decoder's unescaping removes exactly one leading
`#` — for any buffer table — restoring the original string after a round
trip. -/
theorem C8_escape_roundtrip (conv : NumConv) (s : String) (key : JKey) (opts : PackOptions)
    (bufs B : List PackBuffer) (hs : startsWithHashSlash s = true) :
    packBinaryJson conv (.str s) key opts bufs = (.str ⟨'#' :: s.data⟩, bufs)
    ∧ decodeValue B (.str ⟨'#' :: s.data⟩) = some (.str s) := by
  constructor
  · simp only [packBinaryJson, if_pos hs]
  · obtain ⟨r, hr⟩ := hashSlashPrefix_shape hs
    have hseq : s = ⟨'#' :: '/' :: r⟩ := by rw [← hr]
    rw [hseq]
    rfl

/-- Witness for C8 at the concrete string `#/foo`: it packs to `##/foo`
without touching the buffer list, and decoding restores `#/foo`. -/
theorem C8_witness :
    packBinaryJson convId (.str "#/foo") .noKey {} [] = (.str ⟨'#' :: "#/foo".data⟩, [])
    ∧ decodeValue [] (.str ⟨'#' :: "#/foo".data⟩) = some (.str "#/foo") :=
  C8_escape_roundtrip convId "#/foo" .noKey {} [] [] (by decide)

/-- Claim C10: in `packBinaryJson`, for an array whose key triggers no
flattening (any key other than `vertices`/`points`/`colors`), the
element-wise recursive call passes the options object in the `objectKey`
parameter position and omits the `options` parameter — so every element is
processed with the default options (whose `flattenArrays` is `true`)
regardless of the `flattenArrays` the caller passed, and the element sees no
flattening key (an options object in key position never matches a flattening
key). -/
theorem C10_elementwise_options (conv : NumConv) (k : String) (xs : JArr)
    (opts : PackOptions) (bufs : List PackBuffer)
    (hv : k ≠ "vertices") (hp : k ≠ "points") (hc : k ≠ "colors") :
    packBinaryJson conv (.arr xs) (.str k) opts bufs
      = (.arr (packArr conv xs (.opts opts) {} bufs).1,
         (packArr conv xs (.opts opts) {} bufs).2)
    ∧ (∀ (o : PackOptions) (ys : JArr), flattenObject conv (.opts o) ys = none)
    ∧ ({} : PackOptions).flattenArrays = true := by
  refine ⟨?_, ?_, rfl⟩
  · have hnone : (if opts.flattenArrays then flattenObject conv (.str k) xs else none) = none := by
      by_cases hf : opts.flattenArrays = true
      · rw [if_pos hf, flattenObject, if_neg, if_neg]
        · simp [hc]
        · simp [hv, hp]
      · rw [if_neg hf]
    simp only [packBinaryJson, hnone]
  · intro o ys
    rw [flattenObject, if_neg, if_neg] <;> simp

/-- Witness for C10: under key `foo` with `flattenArrays := false`, an
element that is an object with its own `vertices` field is nevertheless
packed with flattening enabled — the element-wise call restored the default
options — so a buffer is created for the nested `vertices`. -/
theorem C10_witness :
    packBinaryJson convId
        (.arr (.cons (.obj (.cons "vertices"
          (.arr (.cons (.num 7) (.cons (.num 8) (.cons (.num 9) .nil)))) .nil)) .nil))
        (.str "foo") { flattenArrays := false } []
      = (.arr (packArr convId
          (.cons (.obj (.cons "vertices"
            (.arr (.cons (.num 7) (.cons (.num 8) (.cons (.num 9) .nil)))) .nil)) .nil)
          (.opts { flattenArrays := false }) {} []).1,
         (packArr convId
          (.cons (.obj (.cons "vertices"
            (.arr (.cons (.num 7) (.cons (.num 8) (.cons (.num 9) .nil)))) .nil)) .nil)
          (.opts { flattenArrays := false }) {} []).2)
    ∧ (packBinaryJson convId
        (.arr (.cons (.obj (.cons "vertices"
          (.arr (.cons (.num 7) (.cons (.num 8) (.cons (.num 9) .nil)))) .nil)) .nil))
        (.str "foo") { flattenArrays := false } []).2
      = [{ size := 3, data := [7, 8, 9] }] :=
  ⟨(C10_elementwise_options convId "foo"
      (.cons (.obj (.cons "vertices"
        (.arr (.cons (.num 7) (.cons (.num 8) (.cons (.num 9) .nil)))) .nil)) .nil)
      { flattenArrays := false } [] (by decide) (by decide) (by decide)).1,
   by decide⟩

/-! ### Protocol message parser and stream normalizer

The parser (`unpackEnvelope`, `parseStreamLogData`) and the stream
normalizer live in the `@xviz/parser` package, which is not part of the
repository snapshot — only its test suite is.  They are modelled from the
specification below.  Timestamps and ids are modelled as integers. -/

/-- Modelled from the spec: an envelope `{type, data}`. -/
structure Envelope (α : Type) where
  type : String
  data : α
deriving DecidableEq

/-- Modelled from the spec: the unpacked envelope `{namespace, type, data}`
(`ns` stands for the namespace field, `namespace` being reserved in
Lean). -/
structure UnpackedEnvelope (α : Type) where
  ns : String
  type : String
  data : α
deriving DecidableEq

/-- Modelled from the spec: `unpackEnvelope` derives namespace/type by
splitting the `type` field on the first `/`; a leading `/` yields an empty
namespace and the remainder (further slashes included) as type; absence of
`/` yields an empty type.  Pure string manipulation, never schema-aware. -/
def unpackEnvelope {α : Type} (env : Envelope α) : UnpackedEnvelope α :=
  { ns := ⟨env.type.data.takeWhile (· != '/')⟩
    type := ⟨(env.type.data.dropWhile (· != '/')).drop 1⟩
    data := env.data }

/-- Modelled from the spec: a pose; only its own timestamp matters to the
parser claims. -/
structure Pose where
  timestamp : Option Int := none
deriving DecidableEq

/-- Modelled from the spec: one point primitive entry of a stream — an
optional id (`base.object_id`), a list of points (each a list of
components), an optional explicit `colors` list (one color per point) and
an optional single fallback `color`. -/
structure PointEntry where
  id : Option Int := none
  points : List (List Int) := []
  colors : Option (List (List Int)) := none
  color : Option (List Int) := none
deriving DecidableEq

/-- Modelled from the spec: the normalized point-cloud `StreamEntry`. -/
structure PointCloud where
  ids : List (Option Int)
  numInstances : Nat
  positions : List Int
  colors : Option (List Int)
deriving DecidableEq

/-- Modelled from the spec: the colors an entry supplies — the explicit
`colors` field is preferred over the single fallback `color` field (which
counts as one color). -/
def entryColors (e : PointEntry) : Option (List (List Int)) :=
  match e.colors with
  | some cs => some cs
  | none =>
    match e.color with
    | some c => some [c]
    | none => none

/-- Modelled from the spec: the color stride inferred for a merged stream —
the component count of the first color supplied by any entry, 4 if that
first color has length 4 and 3 otherwise (identical to the codec's
`colorsSize` rule). -/
def mergedColorStride (entries : List PointEntry) : Nat :=
  match entries.findSome? entryColors with
  | some (c :: _) => if c.length = 4 then 4 else 3
  | _ => 3

/-- Modelled from the spec: merging a stream's point-primitive entries into
one point-cloud `StreamEntry`: one growing flattened position buffer (the
components of every point in order), an optional flattened color buffer
(absent unless some entry supplies colors), an `ids` sequence with one id
per merged entry, and `numInstances` equal to the number of merged
entries. -/
def mergePointEntries (entries : List PointEntry) : PointCloud :=
  { ids := entries.map (fun e => e.id)
    numInstances := entries.length
    positions := entries.flatMap (fun e => e.points.flatMap (fun p => p))
    colors :=
      if entries.any (fun e => (entryColors e).isSome) then
        some (entries.flatMap (fun e => ((entryColors e).getD []).flatMap (fun c => c)))
      else none }

/-- Modelled from the spec: the process-wide protocol configuration. -/
structure XVIZConfig where
  supportedVersions : List Nat := [1, 2]
  currentMajorVersion : Nat := 1
  primaryPoseStream : String := "/vehicle_pose"
deriving DecidableEq

/-- Modelled from the spec: one update entry (stream set) of a v2
`updates` / v1 `state_updates` list: an optional direct timestamp, a poses
map (association list in stream-name iteration order) and a primitives map
from stream name to that stream's point entries. -/
structure StreamSet where
  timestamp : Option Int := none
  poses : List (String × Pose) := []
  primitives : List (String × List PointEntry) := []
deriving DecidableEq

/-- Modelled from the spec: a wire message — an optional version string, the
v2 `updates` list, the v1 `state_updates` list, and the v1 top-level
`timestamp` and `vehicle_pose` fields. -/
structure Message where
  version : Option String := none
  timestamp : Option Int := none
  vehiclePose : Option Pose := none
  updates : Option (List StreamSet) := none
  stateUpdates : Option (List StreamSet) := none
deriving DecidableEq

/-- Modelled from the spec: the canonical tagged message. -/
inductive LogStreamMessage where
  | metadata (version : Nat)
  | timeslice (timestamp : Int) (streams : List (String × PointCloud))
  | incomplete (message : String)
deriving DecidableEq

/-- Modelled from the spec: the errors the parser throws (as opposed to the
`Incomplete` values it returns): an unsupported version names both the
detected version and the required set; a present but unparseable version
string is an "unable to detect version" error. -/
inductive ParseError where
  | unsupportedVersion (detected : Nat) (supported : List Nat)
  | undetectableVersion
deriving DecidableEq

/-- The declared or inferred sub-type the parser dispatches on. -/
inductive MessageKind where
  | metadata
  | stateUpdate
deriving DecidableEq

/-- Modelled from the spec: the major component of a version string — the
decimal digits before the first `.`; `none` when unparseable. -/
def parseMajorVersion (s : String) : Option Nat :=
  charsToNat (s.data.takeWhile (· != '.'))

/-- Modelled from the spec: if the message carries an explicit version
string, parse its major component (failure is a hard error); otherwise
assume the configured current major version. -/
def detectVersion (cfg : XVIZConfig) (msg : Message) : Except ParseError Nat :=
  match msg.version with
  | some s =>
    match parseMajorVersion s with
    | some v => .ok v
    | none => .error .undetectableVersion
  | none => .ok cfg.currentMajorVersion

/-- Modelled from the spec: the first pose encountered in stream-name
iteration order that carries its own timestamp. -/
def firstPoseTimestamp (poses : List (String × Pose)) : Option Int :=
  poses.findSome? (fun p => p.2.timestamp)

/-- Modelled from the spec: a v2 update entry resolves its timestamp
directly, or else by promoting a pose's own timestamp — the first pose
encountered in stream-name iteration order wins when several disagree. -/
def resolveStreamSetTimestamp (ss : StreamSet) : Option Int :=
  match ss.timestamp with
  | some t => some t
  | none => firstPoseTimestamp ss.poses

/-- Modelled from the spec: the per-stream normalization of one update's
primitives. -/
def normalizeStreams (ss : StreamSet) : List (String × PointCloud) :=
  ss.primitives.map (fun p => (p.1, mergePointEntries p.2))

/-- Modelled from the spec: the v1 canonical timestamp — the vehicle pose's
own time is preferred over the message's top-level timestamp (as the
repository's v1 timeslice test fixes). -/
def resolveV1Timestamp (msg : Message) : Option Int :=
  match msg.vehiclePose with
  | some p =>
    match p.timestamp with
    | some t => some t
    | none => msg.timestamp
  | none => msg.timestamp

/-- Modelled from the spec: the v2 timeslice path — `updates` must be
present and non-empty, else `Incomplete` citing the field by name; every
update entry must resolve a timestamp, else `Incomplete` citing the missing
timestamp; otherwise a Timeslice carrying the first entry's resolved
timestamp and the normalized streams. -/
def parseTimesliceV2 (msg : Message) : LogStreamMessage :=
  match msg.updates with
  | none => .incomplete "Missing required \"updates\" property"
  | some [] => .incomplete "Property \"updates\" has length of 0"
  | some (u :: rest) =>
    match resolveStreamSetTimestamp u,
        rest.all (fun r => (resolveStreamSetTimestamp r).isSome) with
    | some t, true => .timeslice t (normalizeStreams u)
    | _, _ => .incomplete "Missing timestamp in \"updates\""

/-- Modelled from the spec: the v1 timeslice path — field `state_updates`,
canonical timestamp from the vehicle pose / top-level timestamp. -/
def parseTimesliceV1 (msg : Message) : LogStreamMessage :=
  match msg.stateUpdates with
  | none => .incomplete "Missing required \"state_updates\" property"
  | some [] => .incomplete "Property \"state_updates\" has length of 0"
  | some (u :: _) =>
    match resolveV1Timestamp msg with
    | some t => .timeslice t (normalizeStreams u)
    | none => .incomplete "Missing timestamp in \"state_updates\""

/-- Modelled from the spec: `parseStreamLogData` — detect the version, check
membership in `supportedVersions` (mismatch throws `UnsupportedVersion`
naming both the detected version and the required set), then dispatch by
sub-type to the version's normalizer; structural data defects are returned
as canonical `Incomplete` values, never thrown. -/
def parseStreamLogData (cfg : XVIZConfig) (kind : MessageKind) (msg : Message) :
    Except ParseError LogStreamMessage :=
  match detectVersion cfg msg with
  | .error e => .error e
  | .ok v =>
    if v ∈ cfg.supportedVersions then
      match kind with
      | .metadata => .ok (.metadata v)
      | .stateUpdate => .ok (if v = 1 then parseTimesliceV1 msg else parseTimesliceV2 msg)
    else .error (.unsupportedVersion v cfg.supportedVersions)

instance {eps alpha : Type} [DecidableEq eps] [DecidableEq alpha] :
    DecidableEq (Except eps alpha) := fun x y =>
  match x, y with
  | .ok a, .ok b =>
    if h : a = b then .isTrue (by rw [h]) else .isFalse (fun hc => h (by cases hc; rfl))
  | .error a, .error b =>
    if h : a = b then .isTrue (by rw [h]) else .isFalse (fun hc => h (by cases hc; rfl))
  | .ok _, .error _ => .isFalse (fun hc => Except.noConfusion hc)
  | .error _, .ok _ => .isFalse (fun hc => Except.noConfusion hc)

/-! ### Claims about the parser -/

theorem splitSlash_chars (cs : List Char) :
    (∀ c ∈ cs.takeWhile (· != '/'), c ≠ '/')
    ∧ ('/' ∈ cs →
        cs.takeWhile (· != '/') ++ '/' :: (cs.dropWhile (· != '/')).drop 1 = cs)
    ∧ ('/' ∉ cs →
        cs.takeWhile (· != '/') = cs ∧ (cs.dropWhile (· != '/')).drop 1 = []) := by
  induction cs with
  | nil => simp
  | cons c tl ih =>
    by_cases hc : c = '/'
    · subst hc
      refine ⟨?_, ?_, ?_⟩
      · intro x hx
        rw [List.takeWhile_cons] at hx
        simp at hx
      · intro _
        rw [List.takeWhile_cons, List.dropWhile_cons]
        simp
      · intro h
        exact absurd (List.mem_cons_self _ _) h
    · have hpred : (c != '/') = true := by simp [hc]
      refine ⟨?_, ?_, ?_⟩
      · intro x hx
        rw [List.takeWhile_cons, if_pos hpred] at hx
        rcases List.mem_cons.1 hx with h | h
        · rw [h]; exact hc
        · exact ih.1 x h
      · intro hm
        have hm' : '/' ∈ tl := by
          rcases List.mem_cons.1 hm with h | h
          · exact absurd h.symm hc
          · exact h
        rw [List.takeWhile_cons, if_pos hpred, List.dropWhile_cons, if_pos hpred]
        rw [List.cons_append, ih.2.1 hm']
      · intro hnm
        have hnm' : '/' ∉ tl := fun h => hnm (List.mem_cons_of_mem _ h)
        rw [List.takeWhile_cons, if_pos hpred, List.dropWhile_cons, if_pos hpred]
        exact ⟨by rw [(ih.2.2 hnm').1], (ih.2.2 hnm').2⟩

/-- Claim C9: `unpackEnvelope` splits the envelope `type` string on the
first `/` into namespace and type: the namespace never contains a slash;
when the string contains a `/`, namespace ++ "/" ++ type reassembles it
(so a leading slash gives an empty namespace and everything after the first
slash — further slashes included — as the type); without a `/` the whole
string is the namespace and the type is empty; the data is passed through.
Concretely, `"foo"` gives `{namespace := "foo", type := ""}`, `""` gives
`{"", ""}`, `"foo/bar"` gives `{"foo", "bar"}`, and `"/foo/bar"` gives
`{"", "foo/bar"}`. -/
theorem C9_envelope_split :
    (∀ (α : Type) (env : Envelope α),
      (∀ c ∈ (unpackEnvelope env).ns.data, c ≠ '/')
      ∧ ('/' ∈ env.type.data →
          (unpackEnvelope env).ns.data ++ '/' :: (unpackEnvelope env).type.data
            = env.type.data)
      ∧ ('/' ∉ env.type.data →
          (unpackEnvelope env).ns = env.type ∧ (unpackEnvelope env).type = "")
      ∧ (unpackEnvelope env).data = env.data)
    ∧ unpackEnvelope ({ type := "foo", data := 42 } : Envelope Nat)
        = { ns := "foo", type := "", data := 42 }
    ∧ unpackEnvelope ({ type := "", data := 42 } : Envelope Nat)
        = { ns := "", type := "", data := 42 }
    ∧ unpackEnvelope ({ type := "foo/bar", data := 42 } : Envelope Nat)
        = { ns := "foo", type := "bar", data := 42 }
    ∧ unpackEnvelope ({ type := "/foo/bar", data := 42 } : Envelope Nat)
        = { ns := "", type := "foo/bar", data := 42 } := by
  refine ⟨?_, by decide, by decide, by decide, by decide⟩
  intro α env
  have h := splitSlash_chars env.type.data
  refine ⟨h.1, h.2.1, ?_, rfl⟩
  intro hnm
  obtain ⟨h1, h2⟩ := h.2.2 hnm
  constructor
  · show (⟨env.type.data.takeWhile (· != '/')⟩ : String) = env.type
    rw [h1]
  · show (⟨(env.type.data.dropWhile (· != '/')).drop 1⟩ : String) = ""
    rw [h2]

/-- Claim C5: the version gate — whatever the message kind, a detected
major version outside `supportedVersions` makes parsing throw
`UnsupportedVersion` carrying both the detected version and the required
set, and a present but unparseable version string makes parsing throw the
hard "unable to detect version" error. -/
theorem C5_version_gate (cfg : XVIZConfig) (kind : MessageKind) (msg : Message) :
    (∀ v, detectVersion cfg msg = .ok v → v ∉ cfg.supportedVersions →
      parseStreamLogData cfg kind msg = .error (.unsupportedVersion v cfg.supportedVersions))
    ∧ (∀ str, msg.version = some str → parseMajorVersion str = none →
      parseStreamLogData cfg kind msg = .error .undetectableVersion) := by
  constructor
  · intro v hv hns
    simp only [parseStreamLogData, hv]
    rw [if_neg hns]
  · intro str hs hn
    have hd : detectVersion cfg msg = .error .undetectableVersion := by
      simp only [detectVersion, hs, hn]
    simp only [parseStreamLogData, hd]

/-- Witness for C5: `supportedVersions = [2]` with a v1 message throws
`UnsupportedVersion 1 [2]`; symmetrically `supportedVersions = [1]` with a
v2 message throws `UnsupportedVersion 2 [1]`; a present but unparseable
version string `abc` throws the undetectable-version error. -/
theorem C5_witness :
    parseStreamLogData { supportedVersions := [2] } .metadata { version := some "1.0.0" }
      = .error (.unsupportedVersion 1 [2])
    ∧ parseStreamLogData { supportedVersions := [1] } .metadata { version := some "2.0.0" }
      = .error (.unsupportedVersion 2 [1])
    ∧ parseStreamLogData { supportedVersions := [2] } .metadata { version := some "abc" }
      = .error .undetectableVersion :=
  ⟨(C5_version_gate { supportedVersions := [2] } .metadata { version := some "1.0.0" }).1
      1 (by decide) (by decide),
   (C5_version_gate { supportedVersions := [1] } .metadata { version := some "2.0.0" }).1
      2 (by decide) (by decide),
   (C5_version_gate { supportedVersions := [2] } .metadata { version := some "abc" }).2
      "abc" rfl (by decide)⟩

/-- Claim C4: a v2 timeslice whose only defect is a null/absent direct
timestamp while at least one pose carries its own timestamp parses to a
valid Timeslice — not Incomplete, and nothing is thrown — whose timestamp
is that of the first pose (in stream-name iteration order) carrying one. -/
theorem C4_pose_timestamp_promoted (cfg : XVIZConfig) (msg : Message)
    (u : StreamSet) (rest : List StreamSet) (t : Int)
    (hv : detectVersion cfg msg = .ok 2) (hsupp : 2 ∈ cfg.supportedVersions)
    (hupd : msg.updates = some (u :: rest))
    (hut : u.timestamp = none)
    (hpose : firstPoseTimestamp u.poses = some t)
    (hrest : rest.all (fun r => (resolveStreamSetTimestamp r).isSome) = true) :
    parseStreamLogData cfg .stateUpdate msg = .ok (.timeslice t (normalizeStreams u)) := by
  have hres : resolveStreamSetTimestamp u = some t := by
    simp only [resolveStreamSetTimestamp, hut, hpose]
  simp only [parseStreamLogData, hv]
  rw [if_pos hsupp]
  simp only [if_neg (by omega : ¬(2 = 1)), parseTimesliceV2, hupd, hres, hrest]

/-- Witness for C4: an update with a null direct timestamp and a pose
carrying `1001` parses to a Timeslice stamped `1001` (the repository's
"missing timestamp is ok" test case); with two poses disagreeing (`3` on
the first stream, `5` on the second), the first pose in stream-name
iteration order wins. -/
theorem C4_witness :
    parseStreamLogData { currentMajorVersion := 2 } .stateUpdate
        { updates := some [{ poses := [("/vehicle_pose", { timestamp := some 1001 })] }] }
      = .ok (.timeslice 1001
          (normalizeStreams { poses := [("/vehicle_pose", { timestamp := some 1001 })] }))
    ∧ parseStreamLogData { currentMajorVersion := 2 } .stateUpdate
        { updates := some [{ poses :=
            [("/a", { timestamp := some 3 }), ("/b", { timestamp := some 5 })] }] }
      = .ok (.timeslice 3
          (normalizeStreams { poses :=
            [("/a", { timestamp := some 3 }), ("/b", { timestamp := some 5 })] })) :=
  ⟨C4_pose_timestamp_promoted { currentMajorVersion := 2 }
      { updates := some [{ poses := [("/vehicle_pose", { timestamp := some 1001 })] }] }
      { poses := [("/vehicle_pose", { timestamp := some 1001 })] } [] 1001
      (by decide) (by decide) (by decide) (by decide) (by decide) (by decide),
   C4_pose_timestamp_promoted { currentMajorVersion := 2 }
      { updates := some [{ poses :=
          [("/a", { timestamp := some 3 }), ("/b", { timestamp := some 5 })] }] }
      { poses := [("/a", { timestamp := some 3 }), ("/b", { timestamp := some 5 })] } [] 3
      (by decide) (by decide) (by decide) (by decide) (by decide) (by decide)⟩

/-- Claim C3 (corrected, counterexample): the original claim says that an
update entry resolving no timestamp "either directly or via the configured
primary pose stream" yields `Incomplete` — but a pose on a stream other
than the configured primary pose stream also resolves the timestamp: with
the default configuration (primary pose stream `/vehicle_pose`), an update
with no direct timestamp and only a pose on `/other/pose` carrying `5`
parses to a valid Timeslice, not to `Incomplete`. -/
theorem C3_counterexample :
    parseStreamLogData {} .stateUpdate
        { version := some "2.0.0",
          updates := some [{ poses := [("/other/pose", { timestamp := some 5 })] }] }
      = .ok (.timeslice 5 [])
    ∧ ({ poses := [("/other/pose", { timestamp := some 5 })] } : StreamSet).timestamp = none
    ∧ ({} : XVIZConfig).primaryPoseStream = "/vehicle_pose"
    ∧ (List.lookup "/vehicle_pose"
        [("/other/pose", ({ timestamp := some 5 } : Pose))]) = none := by
  decide

/-- Claim C3 (amended): for a timeslice message whose updates list (v2
`updates` / v1 `state_updates`) is absent or empty, or one of whose update
entries resolves no timestamp — neither directly nor via any pose's own
timestamp (the configured primary pose stream's included); for v1, neither
via the vehicle pose nor the top-level timestamp — parsing returns a
canonical `Incomplete` value whose message cites the missing/empty field
(or the missing timestamp) by name, and never throws. -/
theorem C3_incomplete (cfg : XVIZConfig) (msg : Message) (v : Nat)
    (hv : detectVersion cfg msg = .ok v) (hsupp : v ∈ cfg.supportedVersions) :
    (v = 2 → msg.updates = none →
      parseStreamLogData cfg .stateUpdate msg
        = .ok (.incomplete "Missing required \"updates\" property"))
    ∧ (v = 2 → msg.updates = some [] →
      parseStreamLogData cfg .stateUpdate msg
        = .ok (.incomplete "Property \"updates\" has length of 0"))
    ∧ (v = 2 → ∀ u rest, msg.updates = some (u :: rest) →
      (∃ x ∈ u :: rest, resolveStreamSetTimestamp x = none) →
      parseStreamLogData cfg .stateUpdate msg
        = .ok (.incomplete "Missing timestamp in \"updates\""))
    ∧ (v = 1 → msg.stateUpdates = none →
      parseStreamLogData cfg .stateUpdate msg
        = .ok (.incomplete "Missing required \"state_updates\" property"))
    ∧ (v = 1 → msg.stateUpdates = some [] →
      parseStreamLogData cfg .stateUpdate msg
        = .ok (.incomplete "Property \"state_updates\" has length of 0"))
    ∧ (v = 1 → ∀ u rest, msg.stateUpdates = some (u :: rest) →
      resolveV1Timestamp msg = none →
      parseStreamLogData cfg .stateUpdate msg
        = .ok (.incomplete "Missing timestamp in \"state_updates\"")) := by
  have hbase : parseStreamLogData cfg .stateUpdate msg
      = .ok (if v = 1 then parseTimesliceV1 msg else parseTimesliceV2 msg) := by
    simp only [parseStreamLogData, hv]
    rw [if_pos hsupp]
  refine ⟨?_, ?_, ?_, ?_, ?_, ?_⟩
  · intro h2 hupd
    rw [hbase, if_neg (by omega), parseTimesliceV2, hupd]
  · intro h2 hupd
    rw [hbase, if_neg (by omega), parseTimesliceV2, hupd]
  · intro h2 u rest hupd hex
    obtain ⟨x, hx, hxnone⟩ := hex
    rw [hbase, if_neg (by omega)]
    rcases List.mem_cons.1 hx with hxu | hxr
    · have hres : resolveStreamSetTimestamp u = none := by
        rw [← hxu]
        exact hxnone
      simp only [parseTimesliceV2, hupd, hres]
    · have hall : rest.all (fun r => (resolveStreamSetTimestamp r).isSome) = false := by
        rw [List.all_eq_false]
        refine ⟨x, hxr, ?_⟩
        rw [hxnone]
        simp
      simp only [parseTimesliceV2, hupd, hall]
      cases hres2 : resolveStreamSetTimestamp u <;> rfl
  · intro h1 hupd
    rw [hbase, if_pos h1, parseTimesliceV1, hupd]
  · intro h1 hupd
    rw [hbase, if_pos h1, parseTimesliceV1, hupd]
  · intro h1 u rest hupd hnone
    rw [hbase, if_pos h1, parseTimesliceV1, hupd, hnone]

/-- Witness for C3 (amended): the three v2 fixtures of the repository's
tests — missing `updates`, empty `updates`, and an update entry with no
resolvable timestamp — each parse to the cited `Incomplete` value. -/
theorem C3_witness :
    parseStreamLogData { currentMajorVersion := 2 } .stateUpdate {}
      = .ok (.incomplete "Missing required \"updates\" property")
    ∧ parseStreamLogData { currentMajorVersion := 2 } .stateUpdate { updates := some [] }
      = .ok (.incomplete "Property \"updates\" has length of 0")
    ∧ parseStreamLogData { currentMajorVersion := 2 } .stateUpdate { updates := some [{}] }
      = .ok (.incomplete "Missing timestamp in \"updates\"") :=
  ⟨(C3_incomplete { currentMajorVersion := 2 } {} 2 (by decide) (by decide)).1 rfl rfl,
   (C3_incomplete { currentMajorVersion := 2 } { updates := some [] } 2
      (by decide) (by decide)).2.1 rfl rfl,
   (C3_incomplete { currentMajorVersion := 2 } { updates := some [{}] } 2
      (by decide) (by decide)).2.2.1 rfl {} [] rfl ⟨{}, by decide, by decide⟩⟩

/-- Claim C2 (corrected, counterexample): with `numInstances` equal to the
number of merged entries — as the spec defines it — and positions holding 3
flattened components per point, the invariant `numInstances * 3 =
positions.length` fails as soon as one entry carries more than one point: a
single entry with two 3-component points merges to `numInstances = 1` but
`positions.length = 6`, also when produced through a full timeslice
parse. -/
theorem C2_counterexample :
    parseStreamLogData { currentMajorVersion := 2 } .stateUpdate
        { updates := some
            [{ timestamp := some 1,
               primitives := [("/test/stream",
                 [{ id := some 1234, points := [[1, 2, 3], [4, 5, 6]] }])] }] }
      = .ok (.timeslice 1 [("/test/stream",
          { ids := [some 1234], numInstances := 1,
            positions := [1, 2, 3, 4, 5, 6], colors := none })])
    ∧ (mergePointEntries [{ id := some 1234, points := [[1, 2, 3], [4, 5, 6]] }]).numInstances * 3
      ≠ (mergePointEntries [{ id := some 1234, points := [[1, 2, 3], [4, 5, 6]] }]).positions.length := by
  decide

/-- Claim C2 (amended): a merged point-cloud `StreamEntry` has
`numInstances` equal to the number of merged entries and one id per merged
entry; `numInstances * 3 = positions.length` holds whenever every merged
entry carries exactly one 3-component point — as every point-cloud entry in
the repository's fixtures does (in general `positions.length` is 3 times
the total point count, not 3 times the entry count). -/
theorem C2_pointcloud_invariant (entries : List PointEntry)
    (h1 : ∀ e ∈ entries, e.points.length = 1)
    (h3 : ∀ e ∈ entries, ∀ p ∈ e.points, p.length = 3) :
    (mergePointEntries entries).numInstances = entries.length
    ∧ (mergePointEntries entries).ids.length = entries.length
    ∧ (mergePointEntries entries).numInstances * 3
      = (mergePointEntries entries).positions.length := by
  refine ⟨rfl, by simp [mergePointEntries], ?_⟩
  show entries.length * 3 = (entries.flatMap (fun e => e.points.flatMap (fun p => p))).length
  induction entries with
  | nil => rfl
  | cons e tl ih =>
    have he1 := h1 e (List.mem_cons_self _ _)
    have heflat : (e.points.flatMap (fun p => p)).length = 3 := by
      obtain ⟨p, hp⟩ := List.length_eq_one.1 he1
      have hp3 := h3 e (List.mem_cons_self _ _) p (by rw [hp]; exact List.mem_cons_self _ _)
      rw [hp]
      simp [hp3]
    have ihtl := ih (fun x hx => h1 x (List.mem_cons_of_mem _ hx))
      (fun x hx => h3 x (List.mem_cons_of_mem _ hx))
    simp only [List.flatMap_cons, List.length_append, List.length_cons, heflat, ← ihtl]
    ring

/-- Witness for C2 (amended): two single-point entries (the repository's
two-entry point-cloud test) merge to `numInstances = 2`,
`positions.length = 6`, `ids.length = 2`. -/
theorem C2_witness :
    (mergePointEntries
        [{ id := some 1234, points := [[1000, 1000, 200]] },
         { id := some 1235, points := [[1000, 1000, 200]] }]).numInstances = 2
    ∧ (mergePointEntries
        [{ id := some 1234, points := [[1000, 1000, 200]] },
         { id := some 1235, points := [[1000, 1000, 200]] }]).ids.length = 2
    ∧ (mergePointEntries
        [{ id := some 1234, points := [[1000, 1000, 200]] },
         { id := some 1235, points := [[1000, 1000, 200]] }]).numInstances * 3
      = (mergePointEntries
        [{ id := some 1234, points := [[1000, 1000, 200]] },
         { id := some 1235, points := [[1000, 1000, 200]] }]).positions.length :=
  C2_pointcloud_invariant
    [{ id := some 1234, points := [[1000, 1000, 200]] },
     { id := some 1235, points := [[1000, 1000, 200]] }]
    (by decide) (by decide)

/-- Claim C6: color stride inference — in the codec, a `colors` array
always flattens to an 8-bit buffer whose component count (`colorsSize`) is
taken from the length of the first element, 4 if it has length 4 and 3
otherwise; concretely `colors = [[0,0,255]]` flattens to the stride-3
sequence `[0,0,255]` and `colors = [[0,0,255,255]]` to the stride-4
sequence `[0,0,255,255]`.  The normalizer infers the stride by the same
first-color rule (preferring the explicit `colors` field over the single
fallback `color` field), and a single-point entry with `colors=[[0,0,255]]`,
with `colors=[[0,0,255,255]]`, or with only the fallback `color=[0,0,255]`
yields the flattened color sequences `[0,0,255]`, `[0,0,255,255]`, and —
identical to the explicit stride-3 case — `[0,0,255]`. -/
theorem C6_color_stride :
    (∀ (conv : NumConv) (xs : JArr),
      flattenObject conv (.str "colors") xs
        = some { size := colorsSize xs, data := (flattenToTypedArray xs).map conv.u8 })
    ∧ (∀ (ys rest : JArr),
        colorsSize (.cons (.arr ys) rest) = if jarrLength ys = 4 then 4 else 3)
    ∧ flattenObject convId (.str "colors")
        (.cons (.arr (.cons (.num 0) (.cons (.num 0) (.cons (.num 255) .nil)))) .nil)
      = some { size := 3, data := [0, 0, 255] }
    ∧ flattenObject convId (.str "colors")
        (.cons (.arr (.cons (.num 0) (.cons (.num 0) (.cons (.num 255)
          (.cons (.num 255) .nil))))) .nil)
      = some { size := 4, data := [0, 0, 255, 255] }
    ∧ (mergePointEntries [{ points := [[1, 2, 3]], colors := some [[0, 0, 255]] }]).colors
        = some [0, 0, 255]
      ∧ mergedColorStride [{ points := [[1, 2, 3]], colors := some [[0, 0, 255]] }] = 3
    ∧ (mergePointEntries [{ points := [[1, 2, 3]], colors := some [[0, 0, 255, 255]] }]).colors
        = some [0, 0, 255, 255]
      ∧ mergedColorStride [{ points := [[1, 2, 3]], colors := some [[0, 0, 255, 255]] }] = 4
    ∧ (mergePointEntries [{ points := [[1, 2, 3]], color := some [0, 0, 255] }]).colors
        = some [0, 0, 255]
      ∧ mergedColorStride [{ points := [[1, 2, 3]], color := some [0, 0, 255] }] = 3
      ∧ (mergePointEntries [{ points := [[1, 2, 3]], color := some [0, 0, 255] }]).colors
        = (mergePointEntries [{ points := [[1, 2, 3]], colors := some [[0, 0, 255]] }]).colors := by
  refine ⟨?_, fun ys rest => rfl, by decide, by decide, by decide, by decide, by decide⟩
  intro conv xs
  rw [flattenObject, if_neg, if_pos rfl]
  simp

/-! ### Adaptive Transport Sender (embedded from `xviz-websocket-sender.js`)

The decision logic of `XVIZWebsocketSender`: per outgoing message, either
forward the message's bytes unchanged (`writeSync` of `msg.data.buffer`) or
re-encode through an `XVIZFormatWriter`.  Socket I/O itself is a
collaborator and not modelled. -/

/-- The XVIZ data formats (`XVIZFormat` of `@xviz/io`). -/
inductive XVIZFormat where
  | binary
  | jsonString
  | jsonBuffer
  | object
deriving DecidableEq

/-- The buffer held by a message's data: a string or a byte buffer with its
`byteLength` (zero is falsy in the JavaScript checks). -/
inductive MsgBuffer where
  | strData (s : String)
  | binData (byteLength : Nat)
deriving DecidableEq

/-- The view of `msg.data` (an `XVIZData`) the sender consults:
`dataFormat()` — the current authoritative representation, `hasMessage()` —
whether a materialized (possibly dirty) object exists, and `buffer`. -/
structure XVIZMsgData where
  dataFormat : XVIZFormat
  hasMessage : Bool
  buffer : MsgBuffer
deriving DecidableEq

/-- The sender options: the configured target `format` and the
`socketFormatPreference`. -/
structure SenderOptions where
  format : Option XVIZFormat := none
  socketFormatPreference : Option XVIZFormat := none
deriving DecidableEq

/-- The sender's mutable state: its options, the `defaultFormat` computed by
the constructor, the current `format` and the current writer's format
(`none` when no writer exists yet). -/
structure SenderState where
  options : SenderOptions
  defaultFormat : XVIZFormat
  format : Option XVIZFormat
  writerFormat : Option XVIZFormat
deriving DecidableEq

/-- Embedded from the constructor: `defaultFormat` is the socket format
preference or binary; `format` starts as the configured format; no writer
exists.  (The constructor throws when the configured format is the
in-memory `object` form; that guard is outside the per-message decision
this model covers.) -/
def mkSender (options : SenderOptions) : SenderState :=
  { options := options
    defaultFormat := options.socketFormatPreference.getD .binary
    format := options.format
    writerFormat := none }

/-- Embedded from `_sendDataDirect`: data can be written to the sink
directly iff no format is configured or the source format matches it, the
source format is not the in-memory object form, and no (possibly dirty)
materialized object exists on the message. -/
def sendDataDirect (st : SenderState) (msg : XVIZMsgData) : Bool :=
  if (st.options.format = none ∨ st.options.format = some msg.dataFormat)
      ∧ msg.dataFormat ≠ XVIZFormat.object then
    if msg.hasMessage = false then true else false
  else false

/-- The test `!msg.data.buffer.byteLength` guarded by
`typeof msg.data.buffer !== 'string'` in `_getFormatOptions`. -/
def bufferNotStringAndEmpty : MsgBuffer → Bool
  | .strData _ => false
  | .binData n => n == 0

/-- Embedded from `_getFormatOptions`: with no current format, an
object-form message or an unmaterialized message whose buffer is neither a
string nor a non-empty byte buffer falls back to the default format,
otherwise the message's own data format is kept; with a current format,
that format is used. -/
def getFormatOptions (st : SenderState) (msg : XVIZMsgData) : XVIZFormat :=
  match st.format with
  | none =>
    if msg.dataFormat = XVIZFormat.object
        ∨ (msg.hasMessage = false ∧ bufferNotStringAndEmpty msg.buffer = true) then
      st.defaultFormat
    else msg.dataFormat
  | some f => f

/-- Embedded from `_syncFormatWithWriter`: a new writer is created when none
exists or the current format differs. -/
def syncFormatWithWriter (st : SenderState) (format : XVIZFormat) : SenderState :=
  if st.writerFormat = none ∨ st.format ≠ some format then
    { st with writerFormat := some format, format := some format }
  else st

/-- What the sender does with one message: forward the buffer unchanged
under the given sink label, or re-encode through a format writer in the
given format. -/
inductive SendAction where
  | direct (label : String) (payload : MsgBuffer)
  | reencode (format : XVIZFormat)
deriving DecidableEq

/-- Embedded from `onStateUpdate`: resolve the format, then either write
`msg.data.buffer` directly under the `2-frame` label or sync the writer and
re-encode. -/
def onStateUpdate (st : SenderState) (msg : XVIZMsgData) : SendAction × SenderState :=
  let format := getFormatOptions st msg
  if sendDataDirect st msg = true then
    (.direct "2-frame" msg.buffer, st)
  else
    (.reencode format, syncFormatWithWriter st format)

/-- Embedded from `onMetadata`: identical decision, `1-frame` label. -/
def onMetadata (st : SenderState) (msg : XVIZMsgData) : SendAction × SenderState :=
  let format := getFormatOptions st msg
  if sendDataDirect st msg = true then
    (.direct "1-frame" msg.buffer, st)
  else
    (.reencode format, syncFormatWithWriter st format)

/-- Claim C7: the sender forwards a state-update message's bytes unchanged
(writes `msg.data.buffer` directly) exactly when no target format is
configured or the configured format equals the data's current format, the
current format is not the in-memory object form, and no materialized
(possibly dirty) object exists on the message; in every other case it
re-encodes the message through a format writer (the resolved format).  The
same holds for metadata messages under the `1-frame` label. -/
theorem C7_send_direct_iff (st : SenderState) (msg : XVIZMsgData) :
    ((onStateUpdate st msg).1 = .direct "2-frame" msg.buffer
      ↔ (st.options.format = none ∨ st.options.format = some msg.dataFormat)
        ∧ msg.dataFormat ≠ XVIZFormat.object ∧ msg.hasMessage = false)
    ∧ (¬((st.options.format = none ∨ st.options.format = some msg.dataFormat)
          ∧ msg.dataFormat ≠ XVIZFormat.object ∧ msg.hasMessage = false) →
        (onStateUpdate st msg).1 = .reencode (getFormatOptions st msg))
    ∧ ((onMetadata st msg).1 = .direct "1-frame" msg.buffer
      ↔ (st.options.format = none ∨ st.options.format = some msg.dataFormat)
        ∧ msg.dataFormat ≠ XVIZFormat.object ∧ msg.hasMessage = false) := by
  have hdir : sendDataDirect st msg = true
      ↔ (st.options.format = none ∨ st.options.format = some msg.dataFormat)
        ∧ msg.dataFormat ≠ XVIZFormat.object ∧ msg.hasMessage = false := by
    rw [sendDataDirect]
    split
    · rename_i h1
      split
      · rename_i h2
        simp [h1, h2]
      · rename_i h2
        simp only [Bool.false_eq_true, false_iff]
        intro hc
        exact h2 hc.2.2
    · rename_i h1
      simp only [Bool.false_eq_true, false_iff]
      intro hc
      exact h1 ⟨hc.1, hc.2.1⟩
  refine ⟨?_, ?_, ?_⟩
  · rw [onStateUpdate]
    split
    · rename_i h
      simp only [true_iff]
      exact hdir.1 h
    · rename_i h
      constructor
      · intro hc
        exact absurd hc (by simp)
      · intro hc
        exact absurd (hdir.2 hc) h
  · intro hc
    rw [onStateUpdate]
    split
    · rename_i h
      exact absurd (hdir.1 h) hc
    · rfl
  · rw [onMetadata]
    split
    · rename_i h
      simp only [true_iff]
      exact hdir.1 h
    · rename_i h
      constructor
      · intro hc
        exact absurd hc (by simp)
      · intro hc
        exact absurd (hdir.2 hc) h

/-- Witness for C7: with no configured format, a clean binary-buffer
state update is forwarded unchanged; with a configured JSON-string format
and binary data, it is re-encoded through the writer. -/
theorem C7_witness :
    (onStateUpdate (mkSender {})
        { dataFormat := .binary, hasMessage := false, buffer := .binData 10 }).1
      = .direct "2-frame" (.binData 10)
    ∧ (onStateUpdate (mkSender { format := some XVIZFormat.jsonString })
        { dataFormat := .binary, hasMessage := false, buffer := .binData 10 }).1
      = .reencode (getFormatOptions (mkSender { format := some XVIZFormat.jsonString })
          { dataFormat := .binary, hasMessage := false, buffer := .binData 10 }) :=
  ⟨(C7_send_direct_iff (mkSender {})
      { dataFormat := .binary, hasMessage := false, buffer := .binData 10 }).1.mpr
      (by decide),
   (C7_send_direct_iff (mkSender { format := some XVIZFormat.jsonString })
      { dataFormat := .binary, hasMessage := false, buffer := .binData 10 }).2.1
      (by decide)⟩

/-- Witness for C9: the split of `"foo/bar"` into namespace `foo` and type
`bar`, by the split theorem. -/
theorem C9_witness :
    unpackEnvelope ({ type := "foo/bar", data := 42 } : Envelope Nat)
      = { ns := "foo", type := "bar", data := 42 } :=
  C9_envelope_split.2.2.2.1

/-- Witness for C6: the stride-3 codec flattening of `colors = [[0,0,255]]`,
by the stride theorem. -/
theorem C6_witness :
    flattenObject convId (.str "colors")
        (.cons (.arr (.cons (.num 0) (.cons (.num 0) (.cons (.num 255) .nil)))) .nil)
      = some { size := 3, data := [0, 0, 255] } :=
  C6_color_stride.2.2.1

end XVIZ
